import Mathlib

/-!
# Verification of the STT benchmark core

Shallow embedding of the benchmark orchestration and metrics-aggregation
engine of the repository (src/utils.py, src/model.py, src/main.py,
src/api.py), together with theorems settling the specification claims.

Strings are modelled as `List Char` (ASCII behaviour of Python's `str`
operations), numbers as `ℚ` (exact arithmetic in place of IEEE floats),
and wall-clock time as an explicit parameter.
-/

namespace STTBench

/-! ## Metrics engine (src/utils.py) -/

/-- Whitespace characters recognised by Python's `str.split()` / `str.strip()`
(ASCII model): space, tab, newline, carriage return, vertical tab, form feed. -/
def pyIsSpace (c : Char) : Bool :=
  c = ' ' || c = '\t' || c = '\n' || c = '\r' || c.toNat = 11 || c.toNat = 12

/-- Characters matched by the regex class `\w` in `re.sub(r'[^\w\s]', '', text)`
(utils.py line 21, ASCII model): alphanumeric or underscore.  These are exactly
the non-whitespace characters KEPT by the punctuation strip. -/
def isWordChar (c : Char) : Bool := c.isAlphanum || c = '_'

/-- Python `str.split()` with no argument: split on whitespace runs, dropping
empty pieces.  `acc` is the (reversed) word currently being accumulated. -/
def wordsAux : List Char → List Char → List (List Char)
  | [], [] => []
  | [], a :: as => [(a :: as).reverse]
  | c :: cs, [] => if pyIsSpace c then wordsAux cs [] else wordsAux cs [c]
  | c :: cs, a :: as =>
    if pyIsSpace c then (a :: as).reverse :: wordsAux cs []
    else wordsAux cs (c :: a :: as)

/-- `text.split()` in utils.py line 24. -/
def pyWords (s : List Char) : List (List Char) := wordsAux s []

/-- `' '.join(words)` in utils.py line 24. -/
def joinSpace : List (List Char) → List Char
  | [] => []
  | [w] => w
  | w :: ws => w ++ ' ' :: joinSpace ws

/-- utils.py `normalize_text` (lines 7-26): lowercase, delete the characters
matched by `[^\w\s]`, then collapse/trim whitespace via `' '.join(text.split())`.
The `if not text: return ""` guard is subsumed: every branch below maps `[]`
to `[]`. -/
def normalize_text (s : List Char) : List Char :=
  joinSpace (pyWords ((s.map Char.toLower).filter (fun c => isWordChar c || pyIsSpace c)))

/-- Levenshtein edit distance (unit costs), the distance underlying
`jiwer.wer` (on word tokens) and `jiwer.cer` (on characters). -/
def lev {α : Type} [DecidableEq α] : List α → List α → Nat
  | [], ys => ys.length
  | x :: xs, [] => (x :: xs).length
  | x :: xs, y :: ys =>
    if x = y then lev xs ys
    else 1 + min (lev (x :: xs) ys) (min (lev xs (y :: ys)) (lev xs ys))
termination_by xs ys => xs.length + ys.length
decreasing_by all_goals simp_arith

/-- Python's `not s or not s.strip()`: the string is empty or whitespace-only. -/
def isBlank (s : List Char) : Bool := s.all pyIsSpace

/-- Python's binary `min` on numbers (kernel-reducible, unlike Mathlib's `min` on `ℚ`). -/
def qmin (a b : ℚ) : ℚ := if a ≤ b then a else b

/-- Python's binary `max` on numbers. -/
def qmax (a b : ℚ) : ℚ := if a ≤ b then b else a

/-- utils.py `calculate_wer` (lines 29-48).  `jiwer.wer` on the two normalized
strings is modelled as word-level Levenshtein distance divided by the number of
reference words; the result is a percentage capped at 100.  The `except` branch
of the source is unreachable in the model (the guarded calls are total). -/
def calculate_wer (reference hypothesis : List Char) : ℚ :=
  if isBlank reference then (if isBlank hypothesis then 0 else 100) else
  let rn := normalize_text reference
  let hn := normalize_text hypothesis
  if rn.isEmpty then 0
  else qmin ((lev (pyWords rn) (pyWords hn) : ℚ) / ((pyWords rn).length : ℚ) * 100) 100

/-- utils.py `calculate_cer` (lines 51-70).  `jiwer.cer` on the two normalized
strings is modelled as character-level Levenshtein distance divided by the
reference length; percentage capped at 100. -/
def calculate_cer (reference hypothesis : List Char) : ℚ :=
  if isBlank reference then (if isBlank hypothesis then 0 else 100) else
  let rn := normalize_text reference
  let hn := normalize_text hypothesis
  if rn.isEmpty then 0
  else qmin ((lev rn hn : ℚ) / ((rn.length : ℚ)) * 100) 100

example : normalize_text "Hello,  World!".data = "hello world".data := by decide
example : normalize_text "_".data = "_".data := by decide

/-! ### Structural lemmas about `normalize_text` -/

theorem char_ofNat_toNat (n : Nat) (h : n.isValidChar) : (Char.ofNat n).toNat = n := by
  rw [Char.ofNat, dif_pos h]; rfl

theorem toLower_isUpper_eq_false (c : Char) : (Char.toLower c).isUpper = false := by
  unfold Char.toLower
  dsimp only
  split
  · next h =>
    obtain ⟨h1, h2⟩ := h
    have hv : (Char.ofNat (c.toNat + 32)).toNat = c.toNat + 32 :=
      char_ofNat_toNat _ (Or.inl (by omega))
    have hle : ¬ ((Char.ofNat (c.toNat + 32)).val ≤ (90 : UInt32)) := by
      intro hle
      rw [UInt32.le_def, BitVec.le_def] at hle
      have : (Char.ofNat (c.toNat + 32)).toNat ≤ 90 := hle
      omega
    unfold Char.isUpper
    simp [hle]
  · next h =>
    have hn : ¬ (65 ≤ c.toNat ∧ c.toNat ≤ 90) := h
    unfold Char.isUpper
    rcases Nat.lt_or_ge c.toNat 65 with hlt | hge
    · have : ¬ ((65 : UInt32) ≤ c.val) := by
        intro hle
        rw [UInt32.le_def, BitVec.le_def] at hle
        have : 65 ≤ c.toNat := hle
        omega
      simp [this]
    · have h90 : 90 < c.toNat := by omega
      have : ¬ (c.val ≤ (90 : UInt32)) := by
        intro hle
        rw [UInt32.le_def, BitVec.le_def] at hle
        have : c.toNat ≤ 90 := hle
        omega
      simp [this]

theorem toLower_eq_self_of_lt (c : Char) (h : c.toNat < 65) : Char.toLower c = c := by
  unfold Char.toLower
  dsimp only
  rw [if_neg]
  omega

theorem pyIsSpace_toNat_lt (c : Char) (h : pyIsSpace c = true) : c.toNat < 65 := by
  unfold pyIsSpace at h
  simp only [Bool.or_eq_true, decide_eq_true_eq] at h
  rcases h with ((((h | h) | h) | h) | h) | h <;> first
    | (subst h; decide)
    | omega

/-- Every character of every word produced by `wordsAux` satisfies any predicate that
holds of the accumulator's characters and of the non-whitespace characters of the input. -/
theorem wordsAux_forall (P : Char → Prop) (s : List Char) :
    ∀ acc, (∀ c ∈ acc, P c) → (∀ c ∈ s, pyIsSpace c = false → P c) →
      ∀ w ∈ wordsAux s acc, ∀ c ∈ w, P c := by
  induction s with
  | nil =>
    intro acc hacc _ w hw c hc
    cases acc with
    | nil => simp [wordsAux] at hw
    | cons a as =>
      simp only [wordsAux, List.mem_singleton] at hw
      subst hw
      exact hacc c (List.mem_reverse.mp hc)
  | cons x xs ih =>
    intro acc hacc hs w hw c hc
    have hs' : ∀ d ∈ xs, pyIsSpace d = false → P d :=
      fun d hd hdn => hs d (List.mem_cons_of_mem x hd) hdn
    cases acc with
    | nil =>
      simp only [wordsAux] at hw
      by_cases hsp : pyIsSpace x = true
      · rw [if_pos hsp] at hw
        exact ih [] (by simp) hs' w hw c hc
      · rw [if_neg hsp] at hw
        refine ih [x] ?_ hs' w hw c hc
        intro d hd
        rcases List.mem_cons.mp hd with rfl | hd'
        · exact hs d (List.mem_cons_self d xs) (by simpa using hsp)
        · simp at hd'
    | cons a as =>
      simp only [wordsAux] at hw
      by_cases hsp : pyIsSpace x = true
      · rw [if_pos hsp] at hw
        rcases List.mem_cons.mp hw with rfl | hw'
        · exact hacc c (List.mem_reverse.mp hc)
        · exact ih [] (by simp) hs' w hw' c hc
      · rw [if_neg hsp] at hw
        refine ih (x :: a :: as) ?_ hs' w hw c hc
        intro d hd
        rcases List.mem_cons.mp hd with rfl | hd'
        · exact hs d (List.mem_cons_self d xs) (by simpa using hsp)
        · exact hacc d hd'

/-- Words produced by `wordsAux` are never empty. -/
theorem wordsAux_mem_ne_nil (s : List Char) :
    ∀ acc w, w ∈ wordsAux s acc → w ≠ [] := by
  induction s with
  | nil =>
    intro acc w hw
    cases acc with
    | nil => simp [wordsAux] at hw
    | cons a as =>
      simp only [wordsAux, List.mem_singleton] at hw
      subst hw
      simp
  | cons x xs ih =>
    intro acc w hw
    cases acc with
    | nil =>
      simp only [wordsAux] at hw
      by_cases hsp : pyIsSpace x = true
      · rw [if_pos hsp] at hw
        exact ih [] w hw
      · rw [if_neg hsp] at hw
        exact ih [x] w hw
    | cons a as =>
      simp only [wordsAux] at hw
      by_cases hsp : pyIsSpace x = true
      · rw [if_pos hsp] at hw
        rcases List.mem_cons.mp hw with rfl | hw'
        · simp
        · exact ih [] w hw'
      · rw [if_neg hsp] at hw
        exact ih (x :: a :: as) w hw

/-- `wordsAux` yields no words exactly when the input is all whitespace and the
accumulator is empty. -/
theorem wordsAux_eq_nil_iff (s : List Char) :
    ∀ acc, wordsAux s acc = [] ↔ (s.all pyIsSpace = true ∧ acc = []) := by
  induction s with
  | nil =>
    intro acc
    cases acc with
    | nil => simp [wordsAux]
    | cons a as => simp [wordsAux]
  | cons x xs ih =>
    intro acc
    cases acc with
    | nil =>
      simp only [wordsAux]
      by_cases hsp : pyIsSpace x = true
      · rw [if_pos hsp]
        simpa [hsp] using ih []
      · rw [if_neg hsp]
        rw [ih [x]]
        simp [hsp]
    | cons a as =>
      simp only [wordsAux]
      by_cases hsp : pyIsSpace x = true
      · rw [if_pos hsp]
        simp
      · rw [if_neg hsp]
        rw [ih (x :: a :: as)]
        simp

theorem joinSpace_cons_exists (w : List Char) (ws : List (List Char)) :
    ∃ t, joinSpace (w :: ws) = w ++ t := by
  cases ws with
  | nil => exact ⟨[], by simp [joinSpace]⟩
  | cons v vs => exact ⟨' ' :: joinSpace (v :: vs), by simp [joinSpace]⟩

/-- The words of `normalize_text s`: nonempty, whitespace-free, made of word characters
(`[^\w\s]` removed), with no uppercase ASCII letter (everything lowercased). -/
theorem normalize_text_struct (s : List Char) :
    ∃ ws, normalize_text s = joinSpace ws ∧
      ∀ w ∈ ws, w ≠ [] ∧
        ∀ c ∈ w, pyIsSpace c = false ∧ isWordChar c = true ∧ c.isUpper = false := by
  refine ⟨pyWords ((s.map Char.toLower).filter (fun c => isWordChar c || pyIsSpace c)),
    rfl, ?_⟩
  intro w hw
  refine ⟨wordsAux_mem_ne_nil _ _ w hw, ?_⟩
  intro c hc
  refine wordsAux_forall
    (fun c => pyIsSpace c = false ∧ isWordChar c = true ∧ c.isUpper = false)
    _ [] (by simp) ?_ w hw c hc
  intro d hd hdn
  refine ⟨hdn, ?_, ?_⟩
  · have hkept := List.of_mem_filter hd
    simp only [Bool.or_eq_true] at hkept
    rcases hkept with h | h
    · exact h
    · rw [h] at hdn; cases hdn
  · have hmap := List.mem_of_mem_filter hd
    obtain ⟨a, _, rfl⟩ := List.mem_map.mp hmap
    exact toLower_isUpper_eq_false a

/-- A whitespace-only string normalizes to the empty string. -/
theorem normalize_text_of_isBlank (s : List Char) (h : isBlank s = true) :
    normalize_text s = [] := by
  unfold normalize_text pyWords
  have hall : ((s.map Char.toLower).filter (fun c => isWordChar c || pyIsSpace c)).all
      pyIsSpace = true := by
    rw [List.all_eq_true]
    intro c hc
    have hmap := List.mem_of_mem_filter hc
    obtain ⟨a, ha, rfl⟩ := List.mem_map.mp hmap
    have hsp : pyIsSpace a = true := List.all_eq_true.mp h a ha
    rw [toLower_eq_self_of_lt a (pyIsSpace_toNat_lt a hsp)]
    exact hsp
  rw [(wordsAux_eq_nil_iff _ _).mpr ⟨hall, rfl⟩]
  rfl

/-- A string whose `normalize_text` is nonempty splits into at least one word. -/
theorem pyWords_normalize_ne_nil (s : List Char) (h : normalize_text s ≠ []) :
    pyWords (normalize_text s) ≠ [] := by
  obtain ⟨ws, hws, hprops⟩ := normalize_text_struct s
  cases ws with
  | nil => exact absurd hws (by simpa [joinSpace] using h)
  | cons w ws' =>
    obtain ⟨t, ht⟩ := joinSpace_cons_exists w ws'
    obtain ⟨hne, hchars⟩ := hprops w (List.mem_cons_self w ws')
    cases w with
    | nil => exact absurd rfl hne
    | cons c cs =>
      rw [hws, ht]
      intro hnil
      have : wordsAux (cs ++ t) [c] = [] := by
        simpa [pyWords, wordsAux, (hchars c (List.mem_cons_self c cs)).1] using hnil
      have := (wordsAux_eq_nil_iff _ _).mp this
      exact absurd this.2 (by simp)

theorem lev_nil_right {α : Type} [DecidableEq α] (xs : List α) : lev xs [] = xs.length := by
  cases xs <;> simp [lev]

/-! ## Claims C2 and C9 -/

/-- C2: if the reference is empty or whitespace-only, `calculate_wer` and `calculate_cer`
return 0 when the hypothesis is also empty/whitespace-only and 100 otherwise; if the
reference is not whitespace-only but its normalized form is empty, the result is 0
regardless of the hypothesis; a reference with nonempty normalized form scores 100
against an empty or whitespace-only hypothesis. -/
theorem wer_cer_edge_cases (ref hyp : List Char) :
    (isBlank ref = true →
      calculate_wer ref hyp = (if isBlank hyp = true then 0 else 100) ∧
      calculate_cer ref hyp = (if isBlank hyp = true then 0 else 100)) ∧
    (isBlank ref = false → normalize_text ref = [] →
      calculate_wer ref hyp = 0 ∧ calculate_cer ref hyp = 0) ∧
    (isBlank ref = false → normalize_text ref ≠ [] → isBlank hyp = true →
      calculate_wer ref hyp = 100 ∧ calculate_cer ref hyp = 100) := by
  refine ⟨?_, ?_, ?_⟩
  · intro h
    constructor <;> simp [calculate_wer, calculate_cer, h]
  · intro h hn
    constructor <;> simp [calculate_wer, calculate_cer, h, hn]
  · intro h hn hb
    have hhyp : normalize_text hyp = [] := normalize_text_of_isBlank hyp hb
    have hwords : pyWords (normalize_text ref) ≠ [] := pyWords_normalize_ne_nil ref hn
    have hlenw : ((pyWords (normalize_text ref)).length : ℚ) ≠ 0 := by
      have : (pyWords (normalize_text ref)).length ≠ 0 :=
        fun hh => hwords (List.length_eq_zero.mp hh)
      exact_mod_cast this
    have hlenc : ((normalize_text ref).length : ℚ) ≠ 0 := by
      have : (normalize_text ref).length ≠ 0 := fun hh => hn (List.length_eq_zero.mp hh)
      exact_mod_cast this
    constructor
    · simp only [calculate_wer, h, Bool.false_eq_true, if_false, hhyp]
      rw [if_neg (by simpa [List.isEmpty_iff] using hn)]
      have hp : pyWords ([] : List Char) = [] := rfl
      rw [hp, lev_nil_right, div_self hlenw, one_mul]
      unfold qmin
      rw [if_pos le_rfl]
    · simp only [calculate_cer, h, Bool.false_eq_true, if_false, hhyp]
      rw [if_neg (by simpa [List.isEmpty_iff] using hn)]
      rw [lev_nil_right, div_self hlenc, one_mul]
      unfold qmin
      rw [if_pos le_rfl]

theorem wer_cer_edge_witness :
    calculate_wer "hello".data " ".data = 100 ∧ calculate_cer "hello".data " ".data = 100 :=
  (wer_cer_edge_cases "hello".data " ".data).2.2 (by decide) (by decide) (by decide)

/-- C9 counterexample: the underscore is a `\w` character, so `re.sub(r'[^\w\s]', '', ...)`
keeps it: `normalize_text "_" = "_"`, whose character is not alphanumeric — the output is
not made of alphanumeric characters only. -/
theorem normalize_text_underscore :
    normalize_text ['_'] = ['_'] ∧ Char.isAlphanum '_' = false := by decide

/-- C9 (amended): `normalize_text` lowercases, removes every character that is neither a
word character (alphanumeric or underscore) nor whitespace, collapses internal whitespace
runs to single spaces and trims; empty input yields empty output — the result consists of
nonempty words of non-uppercase word characters joined by single spaces. -/
theorem normalize_text_spec (s : List Char) :
    normalize_text [] = [] ∧
    ∃ ws, normalize_text s = joinSpace ws ∧
      ∀ w ∈ ws, w ≠ [] ∧
        ∀ c ∈ w, pyIsSpace c = false ∧ isWordChar c = true ∧ c.isUpper = false :=
  ⟨rfl, normalize_text_struct s⟩

/-! ## Metric aggregation (utils.py `aggregate_metrics`) -/

/-- One per-sample result dict as consumed by `aggregate_metrics`: a metric field is
`none` when the key is missing from the dict or holds Python `None` (the code treats the
two identically: `if k in r and r[k] is not None`), `some v` when a value is present. -/
structure MetricRecord where
  wer : Option ℚ
  cer : Option ℚ
  latency : Option ℚ
  throughput : Option ℚ
deriving DecidableEq

/-- The comprehension `[r.get(k, 0) for r in results if k in r and r[k] is not None]`
(utils.py lines 103-106). -/
def presentValues (field : MetricRecord → Option ℚ) (results : List MetricRecord) : List ℚ :=
  (results.filter (fun r => (field r).isSome)).map (fun r => (field r).getD 0)

/-- `np.mean`. -/
def listMean (l : List ℚ) : ℚ := l.sum / l.length

/-- The square of `np.std` with its default `ddof=0`, i.e. the population variance
(denominator `n`, not `n-1`).  `np.std` returns the square root of this value; a square
root of a rational is irrational in general, so the model records the variance, which
determines the standard deviation uniquely and preserves the population-vs-sample
distinction exactly. -/
def listPVar (l : List ℚ) : ℚ := (l.map (fun x => (x - listMean l) ^ 2)).sum / l.length

/-- `np.min` on a nonempty list (0 on the empty list, unreachable under `safeStat`). -/
def listMin : List ℚ → ℚ
  | [] => 0
  | x :: xs => xs.foldl qmin x

/-- `np.max` on a nonempty list (0 on the empty list, unreachable under `safeStat`). -/
def listMax : List ℚ → ℚ
  | [] => 0
  | x :: xs => xs.foldl qmax x

/-- Insertion preserving an ascending sort (stable: equal keys keep order). -/
def insertSortedQ (x : ℚ) : List ℚ → List ℚ
  | [] => [x]
  | y :: ys => if y ≤ x then y :: insertSortedQ x ys else x :: y :: ys

/-- Ascending sort of the values, as `np.percentile` performs internally. -/
def sortQ (l : List ℚ) : List ℚ := l.foldl (fun acc x => insertSortedQ x acc) []

/-- `np.percentile(l, q)` with the default linear interpolation between ranks:
rank `h = q/100 * (n-1)`, result `s[⌊h⌋] + (h - ⌊h⌋) * (s[⌊h⌋+1] - s[⌊h⌋])` over the
sorted values. -/
def percentile (l : List ℚ) (q : ℚ) : ℚ :=
  let s := sortQ l
  let h : ℚ := q / 100 * ((s.length : ℚ) - 1)
  let i : ℕ := (Int.floor h).toNat
  let lo := s.getD i 0
  let hi := s.getD (i + 1) lo
  lo + (h - (i : ℚ)) * (hi - lo)

/-- utils.py `safe_stat` (lines 108-113): `float(stat_func(values)) if values else 0.0`.
The `except` branch is unreachable in the model: the statistics above are total. -/
def safeStat (f : List ℚ → ℚ) (l : List ℚ) : ℚ := if l.isEmpty then 0 else f l

/-- The aggregated-metrics dict built by utils.py `aggregate_metrics` (`*_std_sq` fields
record the square of the corresponding `np.std`, see `listPVar`). -/
structure AggregateMetrics where
  wer_mean : ℚ
  wer_std_sq : ℚ
  wer_min : ℚ
  wer_max : ℚ
  cer_mean : ℚ
  cer_std_sq : ℚ
  cer_min : ℚ
  cer_max : ℚ
  latency_mean : ℚ
  latency_std_sq : ℚ
  latency_min : ℚ
  latency_max : ℚ
  latency_p50 : ℚ
  latency_p95 : ℚ
  latency_p99 : ℚ
  throughput_mean : ℚ
  throughput_std_sq : ℚ
  throughput_min : ℚ
  throughput_max : ℚ
  total_samples : ℕ
deriving DecidableEq

/-- utils.py `aggregate_metrics` (lines 73-147). -/
def aggregate_metrics (results : List MetricRecord) : AggregateMetrics :=
  if results.isEmpty then
    { wer_mean := 0, wer_std_sq := 0, wer_min := 0, wer_max := 0,
      cer_mean := 0, cer_std_sq := 0, cer_min := 0, cer_max := 0,
      latency_mean := 0, latency_std_sq := 0, latency_min := 0, latency_max := 0,
      latency_p50 := 0, latency_p95 := 0, latency_p99 := 0,
      throughput_mean := 0, throughput_std_sq := 0, throughput_min := 0,
      throughput_max := 0, total_samples := 0 }
  else
    let wers := presentValues MetricRecord.wer results
    let cers := presentValues MetricRecord.cer results
    let lats := presentValues MetricRecord.latency results
    let thrs := presentValues MetricRecord.throughput results
    { wer_mean := safeStat listMean wers,
      wer_std_sq := safeStat listPVar wers,
      wer_min := safeStat listMin wers,
      wer_max := safeStat listMax wers,
      cer_mean := safeStat listMean cers,
      cer_std_sq := safeStat listPVar cers,
      cer_min := safeStat listMin cers,
      cer_max := safeStat listMax cers,
      latency_mean := safeStat listMean lats,
      latency_std_sq := safeStat listPVar lats,
      latency_min := safeStat listMin lats,
      latency_max := safeStat listMax lats,
      latency_p50 := safeStat (fun l => percentile l 50) lats,
      latency_p95 := safeStat (fun l => percentile l 95) lats,
      latency_p99 := safeStat (fun l => percentile l 99) lats,
      throughput_mean := safeStat listMean thrs,
      throughput_std_sq := safeStat listPVar thrs,
      throughput_min := safeStat listMin thrs,
      throughput_max := safeStat listMax thrs,
      total_samples := results.length }

/-- In `aggregate_metrics`, the values entering a field's statistics are exactly the
values present for that field. -/
theorem presentValues_eq_filterMap (field : MetricRecord → Option ℚ)
    (results : List MetricRecord) :
    presentValues field results = results.filterMap field := by
  induction results with
  | nil => rfl
  | cons r rs ih =>
    unfold presentValues at ih ⊢
    cases hf : field r with
    | none => simp [List.filter_cons, List.filterMap_cons, hf, ih]
    | some v => simp [List.filter_cons, List.filterMap_cons, hf, ih]

/-- C3: `aggregate_metrics []` is the canonical all-zero record with `total_samples = 0`;
`total_samples` is always the number of records; and each of the wer/cer/latency/
throughput statistics (mean, population variance = std², min, max) is computed over
exactly the values present for that field — a record with a missing or null field is
excluded from that field's statistics only. -/
theorem aggregate_metrics_spec (results : List MetricRecord) :
    aggregate_metrics [] =
      ⟨0, 0, 0, 0, 0, 0, 0, 0, 0, 0, 0, 0, 0, 0, 0, 0, 0, 0, 0, 0⟩ ∧
    (aggregate_metrics results).total_samples = results.length ∧
    (aggregate_metrics results).wer_mean
      = safeStat listMean (results.filterMap MetricRecord.wer) ∧
    (aggregate_metrics results).wer_std_sq
      = safeStat listPVar (results.filterMap MetricRecord.wer) ∧
    (aggregate_metrics results).wer_min
      = safeStat listMin (results.filterMap MetricRecord.wer) ∧
    (aggregate_metrics results).wer_max
      = safeStat listMax (results.filterMap MetricRecord.wer) ∧
    (aggregate_metrics results).cer_mean
      = safeStat listMean (results.filterMap MetricRecord.cer) ∧
    (aggregate_metrics results).cer_std_sq
      = safeStat listPVar (results.filterMap MetricRecord.cer) ∧
    (aggregate_metrics results).cer_min
      = safeStat listMin (results.filterMap MetricRecord.cer) ∧
    (aggregate_metrics results).cer_max
      = safeStat listMax (results.filterMap MetricRecord.cer) ∧
    (aggregate_metrics results).latency_mean
      = safeStat listMean (results.filterMap MetricRecord.latency) ∧
    (aggregate_metrics results).latency_std_sq
      = safeStat listPVar (results.filterMap MetricRecord.latency) ∧
    (aggregate_metrics results).latency_min
      = safeStat listMin (results.filterMap MetricRecord.latency) ∧
    (aggregate_metrics results).latency_max
      = safeStat listMax (results.filterMap MetricRecord.latency) ∧
    (aggregate_metrics results).throughput_mean
      = safeStat listMean (results.filterMap MetricRecord.throughput) ∧
    (aggregate_metrics results).throughput_std_sq
      = safeStat listPVar (results.filterMap MetricRecord.throughput) ∧
    (aggregate_metrics results).throughput_min
      = safeStat listMin (results.filterMap MetricRecord.throughput) ∧
    (aggregate_metrics results).throughput_max
      = safeStat listMax (results.filterMap MetricRecord.throughput) := by
  by_cases h : results = []
  · subst h
    exact ⟨rfl, rfl, rfl, rfl, rfl, rfl, rfl, rfl, rfl, rfl, rfl, rfl, rfl, rfl, rfl,
      rfl, rfl, rfl⟩
  · have hne : results.isEmpty = false := by simpa [List.isEmpty_iff] using h
    refine ⟨rfl, ?_, ?_, ?_, ?_, ?_, ?_, ?_, ?_, ?_, ?_, ?_, ?_, ?_, ?_, ?_, ?_, ?_⟩ <;>
      simp [aggregate_metrics, hne, presentValues_eq_filterMap]

/-! ## Example selection (api.py `get_model_examples`, lines 262-280) -/

/-- A detailed result as consumed by the example-selection endpoint: an identifier plus
the `wer` key (`x.get('wer', 0)` tolerates a missing value). -/
structure ExampleRecord where
  rid : String
  wer : Option ℚ
deriving DecidableEq

/-- The sort key `lambda x: x.get('wer', 0)`. -/
def werKey (r : ExampleRecord) : ℚ := r.wer.getD 0

/-- Stable insertion: a new element goes after existing elements with an equal key,
matching the stability of Python's `sorted`. -/
def insertByWer (x : ExampleRecord) : List ExampleRecord → List ExampleRecord
  | [] => [x]
  | y :: ys => if werKey y ≤ werKey x then y :: insertByWer x ys else x :: y :: ys

/-- `sorted(detailed_results, key=lambda x: x.get('wer', 0))`: a stable ascending sort. -/
def sortByWer (l : List ExampleRecord) : List ExampleRecord :=
  l.foldl (fun acc x => insertByWer x acc) []

/-- Python `range(0, stop, step)` for `step > 0`: the multiples of `step` below `stop`. -/
def pyRange (stop step : ℕ) : List ℕ :=
  (List.range ((stop + step - 1) / step)).map (· * step)

/-- api.py `get_model_examples` selection core (lines 262-280): sort by wer ascending,
walk `range(0, min(n, limit*step), step)` with `step = max(n//limit, 1)` guarding
`i < len(sorted_results)`, then truncate with `examples[:limit]`. -/
def get_model_examples (detailed : List ExampleRecord) (limit : ℕ) : List ExampleRecord :=
  let sorted := sortByWer detailed
  let step := max (sorted.length / limit) 1
  ((pyRange (min sorted.length (limit * step)) step).filterMap
    (fun i => sorted.get? i)).take limit

/-- Modelled from the spec's words (§6 `getModelExamples`): take `limit` evenly-spaced
samples of the wer-sorted list, the `k`-th being the element at sorted index `k * stride`
with `stride = max(floor(n/limit), 1)`. -/
def spec_examples (sorted : List ExampleRecord) (limit : ℕ) : List ExampleRecord :=
  (List.range limit).filterMap (fun k => sorted.get? (k * max (sorted.length / limit) 1))

theorem ceilDiv_le (a b s : ℕ) (hs : 0 < s) (h : a ≤ b * s) : (a + s - 1) / s ≤ b := by
  have h1 : a + s - 1 < (b + 1) * s := by
    have h2 : (b + 1) * s = b * s + s := by ring
    omega
  exact Nat.lt_succ_iff.mp ((Nat.div_lt_iff_lt_mul hs).mpr h1)

theorem le_ceilDiv_mul (a s : ℕ) (hs : 0 < s) : a ≤ ((a + s - 1) / s) * s := by
  have hdm := Nat.div_add_mod (a + s - 1) s
  have hmod := Nat.mod_lt (a + s - 1) hs
  have hcomm : ((a + s - 1) / s) * s = s * ((a + s - 1) / s) := Nat.mul_comm _ _
  omega

theorem ceilDiv_exact (b s : ℕ) (hs : 0 < s) : (b * s + s - 1) / s = b := by
  have h1 : b * s + s - 1 = s * b + (s - 1) := by
    have h2 : b * s = s * b := Nat.mul_comm b s
    omega
  rw [h1, Nat.mul_add_div hs, Nat.div_eq_of_lt (by omega)]
  omega

/-- The walked-and-truncated index selection of `get_model_examples` equals the
straightforward "element at `k * s` for `k < limit`" selection. -/
theorem take_filterMap_even (sorted : List ExampleRecord) (limit s : ℕ) (hs0 : 0 < s) :
    ((pyRange (min sorted.length (limit * s)) s).filterMap
      (fun i => sorted.get? i)).take limit
      = (List.range limit).filterMap (fun k => sorted.get? (k * s)) := by
  have hfm : (pyRange (min sorted.length (limit * s)) s).filterMap
        (fun i => sorted.get? i)
      = (List.range ((min sorted.length (limit * s) + s - 1) / s)).filterMap
          (fun k => sorted.get? (k * s)) := by
    unfold pyRange
    rw [List.filterMap_map]
    rfl
  rw [hfm]
  rcases Nat.le_total sorted.length (limit * s) with hcase | hcase
  · rw [Nat.min_eq_left hcase]
    have hc_le : (sorted.length + s - 1) / s ≤ limit := ceilDiv_le _ _ _ hs0 hcase
    have hsplit : List.range limit
        = List.range ((sorted.length + s - 1) / s)
          ++ (List.range (limit - (sorted.length + s - 1) / s)).map
              ((sorted.length + s - 1) / s + ·) := by
      rw [← List.range_add]
      congr 1
      omega
    rw [hsplit, List.filterMap_append]
    have htail : List.filterMap (fun k => sorted.get? (k * s))
        ((List.range (limit - (sorted.length + s - 1) / s)).map
          ((sorted.length + s - 1) / s + ·)) = [] := by
      rw [List.filterMap_eq_nil_iff]
      intro k hk
      obtain ⟨j, hj, rfl⟩ := List.mem_map.mp hk
      apply List.get?_eq_none.mpr
      have h1 : sorted.length ≤ ((sorted.length + s - 1) / s) * s :=
        le_ceilDiv_mul _ _ hs0
      have h2 : ((sorted.length + s - 1) / s) * s
          ≤ ((sorted.length + s - 1) / s + j) * s :=
        Nat.mul_le_mul_right s (by omega)
      omega
    rw [htail, List.append_nil]
    apply List.take_of_length_le
    calc (List.filterMap (fun k => sorted.get? (k * s))
            (List.range ((sorted.length + s - 1) / s))).length
        ≤ (List.range ((sorted.length + s - 1) / s)).length :=
          List.length_filterMap_le _ _
      _ = (sorted.length + s - 1) / s := List.length_range _
      _ ≤ limit := hc_le
  · rw [Nat.min_eq_right hcase, ceilDiv_exact limit s hs0]
    apply List.take_of_length_le
    calc (List.filterMap (fun k => sorted.get? (k * s)) (List.range limit)).length
        ≤ (List.range limit).length := List.length_filterMap_le _ _
      _ = limit := List.length_range _

/-- C4: `get_model_examples` sorts detailed results by wer ascending and returns the
evenly-spaced samples of the sorted order with stride `max(n // limit, 1)`: the `k`-th
returned example is the sorted list's entry at index `k * stride`, for `k < limit`. -/
theorem get_model_examples_spec (detailed : List ExampleRecord) (limit : ℕ)
    (_hl : 0 < limit) :
    get_model_examples detailed limit = spec_examples (sortByWer detailed) limit := by
  unfold get_model_examples spec_examples
  exact take_filterMap_even (sortByWer detailed) limit
    (max ((sortByWer detailed).length / limit) 1)
    (lt_of_lt_of_le Nat.one_pos (le_max_right _ _))

/-- Nine detailed results in scrambled wer order, exercising the 9-sample scenario of the
specification. -/
def nineRecords : List ExampleRecord :=
  [⟨"a", some 40⟩, ⟨"b", some 10⟩, ⟨"c", some 70⟩, ⟨"d", some 0⟩, ⟨"e", some 55⟩,
   ⟨"f", some 25⟩, ⟨"g", some 85⟩, ⟨"h", some 15⟩, ⟨"i", some 60⟩]

theorem get_model_examples_witness :
    0 < 3 ∧ get_model_examples nineRecords 3
      = [⟨"d", some 0⟩, ⟨"f", some 25⟩, ⟨"i", some 60⟩] :=
  ⟨Nat.zero_lt_succ 2, by
    rw [get_model_examples_spec nineRecords 3 (Nat.zero_lt_succ 2)]
    with_unfolding_all rfl⟩

/-! ## Adapter boundary (src/model.py `BaseSTTModel`)

An adapter's behaviour is a pair of parameters: `tr path` is `some text` when the
subclass `transcribe` returns `text` and `none` when it raises (the exception is caught
inside `transcribe_with_metrics`); `lat path` is the wall-clock latency measured for the
call, which the embedding takes as an oracle since real time is outside the model. -/

/-- The dict returned by `transcribe_with_metrics` (model.py lines 50-55). -/
structure TransResult where
  transcription : List Char
  latency : ℚ
  throughput : ℚ
  audio_path : String
deriving DecidableEq

/-- The body of model.py `transcribe_with_metrics` after the loaded-guard (lines 35-55):
a raising `transcribe` is caught and yields the empty transcription; throughput is
`len(transcription) / latency if latency > 0 else 0`. -/
def transcribe_core (tr : String → Option (List Char)) (lat : String → ℚ)
    (path : String) : TransResult :=
  let transcription := (tr path).getD []
  let l := lat path
  { transcription := transcription,
    latency := l,
    throughput := if 0 < l then (transcription.length : ℚ) / l else 0,
    audio_path := path }

/-- model.py `transcribe_with_metrics` (lines 27-55): raises `RuntimeError` when the
model is not loaded, otherwise transcribes.  The second component counts the calls made
to the underlying `transcribe`. -/
def transcribe_with_metrics (isLoaded : Bool) (tr : String → Option (List Char))
    (lat : String → ℚ) (path : String) : Except String TransResult × ℕ :=
  if isLoaded then (Except.ok (transcribe_core tr lat path), 1)
  else (Except.error "Model not loaded. Call load_model() first.", 0)

/-! ## Benchmark runner (src/main.py `BenchmarkRunner`) -/

/-- One dataset sample (main.py lines 125-130): id, temp-file audio path, reference. -/
structure Sample where
  sid : String
  audio_path : String
  reference : List Char
deriving DecidableEq

/-- The `result_entry` dict built per sample (main.py lines 230-239). -/
structure ResultEntry where
  rid : String
  reference : List Char
  hypothesis : List Char
  wer : ℚ
  cer : ℚ
  latency : ℚ
  throughput : ℚ
  dataset : String
deriving DecidableEq

/-- `model_results['datasets'][name]` (main.py lines 264-267). -/
structure DatasetResult where
  samples : ℕ
  metrics : AggregateMetrics
deriving DecidableEq

/-- A model's benchmark output (main.py lines 179-185 and 287-290).  `start_time` and
`end_time` are wall-clock timestamps and are outside the embedding. -/
structure ModelResult where
  model_name : String
  model_path : String
  datasets : List (String × DatasetResult)
  detailed_results : List ResultEntry
deriving DecidableEq

/-- `self.all_results`: the result store, a Python dict from model name to ModelResult,
modelled as an association list in insertion order. -/
abbrev Store := List (String × ModelResult)

/-- `name in store`. -/
def storeHas (st : Store) (name : String) : Bool :=
  (st : List (String × ModelResult)).any (fun p => p.1 = name)

/-- `store[name]` (`none` when absent). -/
def storeFind (st : Store) (name : String) : Option ModelResult :=
  ((st : List (String × ModelResult)).find? (fun p => p.1 = name)).map (fun p => p.2)

/-- `store[name] = r`: overwrite in place, or append when the key is new. -/
def storeSet (st : Store) (name : String) (r : ModelResult) : Store :=
  if storeHas st name then
    (st : List (String × ModelResult)).map (fun p => if p.1 = name then (name, r) else p)
  else st ++ [(name, r)]

/-- Python `dict.update`: entries of `other` override or extend `st`. -/
def storeUpdate (st other : Store) : Store :=
  (other : List (String × ModelResult)).foldl (fun acc p => storeSet acc p.1 p.2) st

/-- Observable per-model events of a `benchmark_model_batch` run. -/
inductive REvent
  | createAdapter (name : String)
  | loadModel (name : String)
  | transcribeEv (name : String) (path : String)
  | cleanupEv (name : String)
  | persistEv
deriving DecidableEq

/-- The `result_entry` computed for one sample in the loop of main.py lines 213-257,
using the guarded `transcribe_with_metrics` of a loaded model and the metrics engine. -/
def mkResultEntry (tr : String → Option (List Char)) (lat : String → ℚ)
    (dsname : String) (s : Sample) : ResultEntry :=
  let res := transcribe_core tr lat s.audio_path
  { rid := s.sid,
    reference := s.reference,
    hypothesis := res.transcription,
    wer := calculate_wer s.reference res.transcription,
    cer := calculate_cer s.reference res.transcription,
    latency := res.latency,
    throughput := res.throughput,
    dataset := dsname }

/-- The metric fields of a `result_entry` as seen by `aggregate_metrics`: every key is
present and non-null. -/
def entryMetrics (e : ResultEntry) : MetricRecord :=
  { wer := some e.wer, cer := some e.cer,
    latency := some e.latency, throughput := some e.throughput }

/-- main.py `benchmark_model_batch` (lines 144-313).  Parameters: `st` is
`self.all_results` on entry; `createOk` / `loadOk` tell whether `ModelFactory.create`
resp. `load_model()` succeed (both failures land in the same `except` which returns
`None`); `tr`/`lat` are the loaded adapter's behaviour; `datasets` are the enabled
datasets with their loaded samples (a dataset whose load failed contributes `[]` and is
skipped by the `if not samples: continue` guard).  Returns the new `self.all_results`,
the Python return value (`none` models `None`), and the event trace. -/
def benchmark_model_batch (st : Store) (name mpath : String) (createOk loadOk : Bool)
    (tr : String → Option (List Char)) (lat : String → ℚ)
    (datasets : List (String × List Sample)) : Store × Option ModelResult × List REvent :=
  if storeHas st name then
    (st, storeFind st name, [])
  else if !createOk then
    (st, none, [])
  else if !loadOk then
    (st, none, [REvent.createAdapter name])
  else
    let used := datasets.filter (fun d => !d.2.isEmpty)
    let detailed := (used.map (fun d => d.2.map (mkResultEntry tr lat d.1))).flatten
    let dsAgg : List (String × DatasetResult) := used.map (fun d =>
      (d.1, { samples := d.2.length,
              metrics := aggregate_metrics
                ((d.2.map (mkResultEntry tr lat d.1)).map entryMetrics) }))
    let events := REvent.createAdapter name :: REvent.loadModel name ::
      (used.map (fun d => d.2.map (fun s => REvent.transcribeEv name s.audio_path))).flatten
      ++ [REvent.cleanupEv name]
    if detailed.isEmpty then
      (st, none, events)
    else
      let mr : ModelResult :=
        { model_name := name, model_path := mpath,
          datasets := dsAgg, detailed_results := detailed }
      (storeSet st name mr, some mr, events ++ [REvent.persistEv])

/-- The state visible from outside while the sample loop of `benchmark_model_batch`
runs: `self.all_results` plus the local `model_results['detailed_results']`. -/
structure MidRun where
  all_results : Store
  detailed : List ResultEntry
deriving DecidableEq

/-- One iteration of the sample loop (main.py lines 213-257): the sample's result entry
is appended to the *local* `model_results`; `self.all_results` is not assigned anywhere
in the loop body. -/
def sampleStep (tr : String → Option (List Char)) (lat : String → ℚ) (dsname : String)
    (ms : MidRun) (s : Sample) : MidRun :=
  { ms with detailed := ms.detailed ++ [mkResultEntry tr lat dsname s] }

/-- The mid-run state after the loop has processed the given samples, starting from
store `st` at the loop entry of a model that was not cached. -/
def midRunState (st : Store) (tr : String → Option (List Char)) (lat : String → ℚ)
    (dsname : String) (processed : List Sample) : MidRun :=
  processed.foldl (sampleStep tr lat dsname) { all_results := st, detailed := [] }

/-! ## API boundary (src/api.py) -/

/-- api.py `get_results` (lines 183-221): read the cache file if present, overlaying the
runner's in-memory results (`dict.update`) when a runner object exists; with no cache
file fall back to the runner's results, then to results.json, then to `{}`. -/
def api_get_results (cacheFile : Option Store) (runner : Option Store)
    (resultsFile : Option Store) : Store :=
  match cacheFile with
  | some cached =>
    match runner with
    | some r => storeUpdate cached r
    | none => cached
  | none =>
    match runner with
    | some r => r
    | none =>
      match resultsFile with
      | some r => r
      | none => []

/-- api.py `clear_cache` (lines 401-423): unlink the cache file when it exists; report
success in both branches.  Nothing else is touched — in particular no runner's
in-memory `all_results`. -/
def clear_cache (cacheFile : Option Store) : Option Store × Bool :=
  match cacheFile with
  | some _ => (none, true)
  | none => (none, true)

/-! ## Durable cache file (main.py `_save_cache` / `_load_cache`) -/

/-- Contents of the cache file: absent, truncated/partially written (unparsable), or a
complete serialized store. -/
inductive CacheFileState
  | absent
  | truncated
  | written (st : Store)
deriving DecidableEq

/-- File-system operations on the cache file.  `renameInto` stands for an atomic
replace of the target by a fully-written temp file (`os.replace`): available in the
vocabulary, unused by the code. -/
inductive FsOp
  | openTrunc
  | writeAll (st : Store)
  | renameInto (st : Store)
deriving DecidableEq

/-- The operations main.py `_save_cache` (lines 67-75) performs on the cache file:
`open(cache_file, 'w')` truncates the file in place, then `json.dump` writes the whole
serialized store.  No temp file, no rename. -/
def save_cache_ops (st : Store) : List FsOp :=
  [FsOp.openTrunc, FsOp.writeAll st]

def applyFsOp (_f : CacheFileState) : FsOp → CacheFileState
  | FsOp.openTrunc => CacheFileState.truncated
  | FsOp.writeAll st => CacheFileState.written st
  | FsOp.renameInto st => CacheFileState.written st

/-- The sequence of cache-file states an operation list passes through, starting from
`f0`; an interruption can leave the file in any state of this trace. -/
def fsTrace (f0 : CacheFileState) : List FsOp → List CacheFileState
  | [] => [f0]
  | op :: ops => f0 :: fsTrace (applyFsOp f0 op) ops

/-- main.py `_load_cache` (lines 53-65): a parsable file yields its store; a missing or
corrupt file downgrades to the empty store with a warning. -/
def load_cache (f : CacheFileState) : Store :=
  match f with
  | CacheFileState.written st => st
  | _ => []

/-! ## Shared concrete fixtures and helper lemmas for the runner claims -/

/-- A completed result for model `A` (fields irrelevant to the claims). -/
def mrA : ModelResult :=
  { model_name := "A", model_path := "pa", datasets := [], detailed_results := [] }

/-- A completed result for model `B`. -/
def mrB : ModelResult :=
  { model_name := "B", model_path := "pb", datasets := [], detailed_results := [] }

/-- A concrete sample. -/
def sampleOne : Sample := { sid := "s1", audio_path := "f1.wav", reference := ['h', 'i'] }

/-- An adapter behaviour that transcribes everything as "hi". -/
def trOne : String → Option (List Char) := fun _ => some ['h', 'i']

/-- A constant one-second latency oracle. -/
def latOne : String → ℚ := fun _ => 1

/-- The sample loop never assigns `self.all_results`: the store component of the mid-run
state is the store at loop entry, whatever prefix of samples has been processed. -/
theorem midRunState_all_results (st : Store) (tr : String → Option (List Char))
    (lat : String → ℚ) (dsname : String) (processed : List Sample) :
    (midRunState st tr lat dsname processed).all_results = st := by
  unfold midRunState
  suffices h : ∀ ms : MidRun,
      ((processed.foldl (sampleStep tr lat dsname) ms).all_results = ms.all_results) from
    h { all_results := st, detailed := [] }
  intro ms
  induction processed generalizing ms with
  | nil => rfl
  | cons s ss ih => rw [List.foldl_cons, ih]; rfl

theorem storeHas_storeSet_false (st : Store) (k : String) (r : ModelResult) (n : String)
    (h1 : storeHas st n = false) (h2 : ¬ k = n) :
    storeHas (storeSet st k r) n = false := by
  unfold storeSet
  split
  · unfold storeHas at h1 ⊢
    rw [List.any_map]
    rw [List.any_eq_false] at h1 ⊢
    intro p hp
    by_cases hk : p.1 = k
    · simp [Function.comp, hk, h2]
    · simp only [Function.comp_apply, hk, if_neg, ite_false]
      simpa using h1 p hp
  · unfold storeHas at h1 ⊢
    rw [List.any_append, h1]
    simp [h2]

theorem storeHas_storeUpdate_false (cached other : Store) (n : String)
    (h1 : storeHas cached n = false) (h2 : storeHas other n = false) :
    storeHas (storeUpdate cached other) n = false := by
  induction other generalizing cached with
  | nil => exact h1
  | cons p ps ih =>
    unfold storeHas at h2
    rw [List.any_cons] at h2
    have hp : ¬ p.1 = n := by
      intro hk
      simp [hk] at h2
    have hps : storeHas ps n = false := by
      unfold storeHas
      exact (Bool.or_eq_false_iff.mp h2).2
    exact ih (storeSet cached p.1 p.2) (storeHas_storeSet_false cached p.1 p.2 n h1 hp) hps

/-! ## Claim C1: resumability -/

/-- C1: when the model's name is already a key of the loaded result store,
`benchmark_model_batch` returns the cached ModelResult with the store unchanged, and the
event trace is empty: no adapter construction, no model load, no transcription. -/
theorem benchmark_cached_skips (st : Store) (name mpath : String)
    (createOk loadOk : Bool) (tr : String → Option (List Char)) (lat : String → ℚ)
    (datasets : List (String × List Sample)) (h : storeHas st name = true) :
    benchmark_model_batch st name mpath createOk loadOk tr lat datasets
      = (st, storeFind st name, []) := by
  unfold benchmark_model_batch
  rw [if_pos h]

theorem benchmark_cached_skips_witness :
    storeHas [("A", mrA)] "A" = true ∧
    benchmark_model_batch [("A", mrA)] "A" "pa" true true trOne latOne []
      = ([("A", mrA)], some mrA, []) :=
  ⟨by decide,
   by rw [benchmark_cached_skips [("A", mrA)] "A" "pa" true true trOne latOne []
        (by decide)]; decide⟩

/-! ## Claim C7: cleanup discipline -/

/-- C7 counterexample: for a model not in the store whose `load_model()` raises,
`benchmark_model_batch` returns after constructing the adapter without ever invoking
`cleanup` — the event trace is exactly `[createAdapter]`, with zero cleanup events
(the `except` at main.py lines 175-177 returns `None` directly). -/
theorem load_failure_no_cleanup :
    (benchmark_model_batch [] "m" "p" true false trOne latOne []).2.2
      = [REvent.createAdapter "m"] ∧
    ((benchmark_model_batch [] "m" "p" true false trOne latOne []).2.2.count
      (REvent.cleanupEv "m")) = 0 := by decide

/-- C7 (amended): for a model not already in the store, when construction and load
succeed the adapter's cleanup is invoked exactly once before `benchmark_model_batch`
returns — on the failure path where `load_model` raises, the function instead returns
`None` right away with no explicit cleanup invocation (resource release is left to the
adapter's `__del__` finalizer). -/
theorem cleanup_once_on_success (st : Store) (name mpath : String)
    (tr : String → Option (List Char)) (lat : String → ℚ)
    (datasets : List (String × List Sample)) (h : storeHas st name = false) :
    ((benchmark_model_batch st name mpath true true tr lat datasets).2.2.count
      (REvent.cleanupEv name)) = 1 ∧
    benchmark_model_batch st name mpath true false tr lat datasets
      = (st, none, [REvent.createAdapter name]) := by
  constructor
  · have hT : (((datasets.filter (fun d => !d.2.isEmpty)).map
        (fun d => d.2.map (fun s => REvent.transcribeEv name s.audio_path))).flatten).count
          (REvent.cleanupEv name) = 0 := by
      rw [List.count_eq_zero]
      intro hmem
      obtain ⟨l, hl, hmem2⟩ := List.mem_flatten.mp hmem
      obtain ⟨d, _, rfl⟩ := List.mem_map.mp hl
      obtain ⟨s', _, he⟩ := List.mem_map.mp hmem2
      exact REvent.noConfusion he
    unfold benchmark_model_batch
    rw [h]
    simp only [Bool.false_eq_true, if_false, Bool.not_true]
    split
    · dsimp only
      simp [List.count_append, List.count_cons, hT]
    · dsimp only
      simp [List.count_append, List.count_cons, hT]
  · unfold benchmark_model_batch
    rw [h]
    rfl

theorem cleanup_once_on_success_witness :
    storeHas [] "m" = false ∧
    ((benchmark_model_batch [] "m" "p" true true trOne latOne []).2.2.count
      (REvent.cleanupEv "m")) = 1 ∧
    benchmark_model_batch [] "m" "p" true false trOne latOne []
      = ([], none, [REvent.createAdapter "m"]) :=
  ⟨by decide,
   (cleanup_once_on_success [] "m" "p" trOne latOne [] (by decide)).1,
   (cleanup_once_on_success [] "m" "p" trOne latOne [] (by decide)).2⟩

/-! ## Claim C5: mid-run results view -/

/-- C5 counterexample: with model A persisted and cached, and model B in flight having
already processed one sample (its result entry exists only in the loop-local
`model_results`), a results read has no entry for B — the in-flight model's partial
per-sample results are not visible to `get_results`. -/
theorem mid_run_read_counterexample :
    (midRunState [("A", mrA)] trOne latOne "ds" [sampleOne]).detailed ≠ [] ∧
    storeHas (api_get_results (some [("A", mrA)])
      (some (midRunState [("A", mrA)] trOne latOne "ds" [sampleOne]).all_results) none)
      "B" = false := by
  constructor
  · simp [midRunState, sampleStep]
  · rw [midRunState_all_results]
    decide

/-- C5 (amended): while a model is being benchmarked, the runner's `all_results` is
still the store at loop entry (completed models only), so `get_results` returns the
persisted store overlaid with the completed in-memory models; the in-flight model's
partial per-sample results are absent from the view until the model completes (only the
single current-sample preview is exposed, via the status callback). -/
theorem mid_run_read (st cached : Store) (tr : String → Option (List Char))
    (lat : String → ℚ) (dsname : String) (processed : List Sample) (name : String)
    (h : storeHas st name = false) :
    (midRunState st tr lat dsname processed).all_results = st ∧
    api_get_results (some cached)
      (some (midRunState st tr lat dsname processed).all_results) none
      = storeUpdate cached st ∧
    (storeHas cached name = false →
      storeHas (api_get_results (some cached)
        (some (midRunState st tr lat dsname processed).all_results) none) name
        = false) := by
  refine ⟨midRunState_all_results st tr lat dsname processed, ?_, ?_⟩
  · rw [midRunState_all_results]
    rfl
  · intro hc
    rw [midRunState_all_results]
    exact storeHas_storeUpdate_false cached st name hc h

theorem mid_run_read_witness :
    (midRunState [("A", mrA)] trOne latOne "ds" [sampleOne]).all_results = [("A", mrA)] ∧
    api_get_results (some [("A", mrA)])
      (some (midRunState [("A", mrA)] trOne latOne "ds" [sampleOne]).all_results) none
      = storeUpdate [("A", mrA)] [("A", mrA)] ∧
    storeHas (api_get_results (some [("A", mrA)])
      (some (midRunState [("A", mrA)] trOne latOne "ds" [sampleOne]).all_results) none)
      "B" = false :=
  ⟨(mid_run_read [("A", mrA)] [("A", mrA)] trOne latOne "ds" [sampleOne] "B"
      (by decide)).1,
   (mid_run_read [("A", mrA)] [("A", mrA)] trOne latOne "ds" [sampleOne] "B"
      (by decide)).2.1,
   (mid_run_read [("A", mrA)] [("A", mrA)] trOne latOne "ds" [sampleOne] "B"
      (by decide)).2.2 (by decide)⟩

/-! ## Claim C6: cache persistence atomicity -/

/-- C6 counterexample: `_save_cache` performs no rename — it truncates the cache file in
place and then writes; starting from a file holding model A's store, the state after the
truncation step holds neither the old nor the new store, and a load at that point yields
the empty store: an interruption mid-write loses the previously persisted results. -/
theorem save_cache_not_atomic :
    (save_cache_ops [("B", mrB)]).all
      (fun op => match op with | FsOp.renameInto _ => false | _ => true) = true ∧
    fsTrace (CacheFileState.written [("A", mrA)]) (save_cache_ops [("B", mrB)])
      = [CacheFileState.written [("A", mrA)], CacheFileState.truncated,
         CacheFileState.written [("B", mrB)]] ∧
    load_cache CacheFileState.truncated = [] := by decide

/-- C6 (amended): `_save_cache` writes the serialized store directly into the cache
file — `open(cache_file, 'w')` truncates it in place, then the whole store is written;
there is no temporary file and no rename/replace.  The final state holds the new store,
but the intermediate state is a truncated file, which `_load_cache` downgrades to the
empty store (with a warning) on the next start. -/
theorem save_cache_direct_write (old : CacheFileState) (st : Store) :
    fsTrace old (save_cache_ops st)
      = [old, CacheFileState.truncated, CacheFileState.written st] ∧
    load_cache CacheFileState.truncated = [] ∧
    load_cache (CacheFileState.written st) = st :=
  ⟨rfl, rfl, rfl⟩

/-! ## Claim C8: cache clearing -/

/-- C8 counterexample: `clear_cache` removes the durable file and reports success, but
the in-memory store of a live runner is untouched: an immediately following results read
still returns model A's entry, not an empty store. -/
theorem clear_cache_leaves_memory :
    clear_cache (some [("A", mrA)]) = (none, true) ∧
    api_get_results (clear_cache (some [("A", mrA)])).1 (some [("A", mrA)]) none
      = [("A", mrA)] := by decide

/-- C8 (amended): `clear_cache` deletes the durable cache file when present and reports
success whether or not the file existed; it empties no in-memory store — a results read
while a runner object is alive still returns the runner's entries, and only with no
runner and no results.json fallback does the read observe no model entries. -/
theorem clear_cache_spec (cacheFile : Option Store) (runnerStore : Store) :
    clear_cache cacheFile = (none, true) ∧
    api_get_results (clear_cache cacheFile).1 (some runnerStore) none = runnerStore ∧
    api_get_results (clear_cache cacheFile).1 none none = [] := by
  cases cacheFile <;> exact ⟨rfl, rfl, rfl⟩

/-! ## Claim C10: guarded transcription -/

/-- C10: `transcribe_with_metrics` raises `RuntimeError` when the model is not loaded,
making no call to `transcribe`; once loaded it calls `transcribe` exactly once, and an
exception inside `transcribe` is caught and surfaces as the empty transcription in the
returned record rather than propagating. -/
theorem transcribe_with_metrics_spec (isLoaded : Bool)
    (tr : String → Option (List Char)) (lat : String → ℚ) (path : String) :
    (isLoaded = false →
      transcribe_with_metrics isLoaded tr lat path
        = (Except.error "Model not loaded. Call load_model() first.", 0)) ∧
    (isLoaded = true →
      transcribe_with_metrics isLoaded tr lat path
        = (Except.ok (transcribe_core tr lat path), 1)) ∧
    (tr path = none → (transcribe_core tr lat path).transcription = []) ∧
    (∀ t, tr path = some t → (transcribe_core tr lat path).transcription = t) := by
  refine ⟨?_, ?_, ?_, ?_⟩
  · intro h
    simp [transcribe_with_metrics, h]
  · intro h
    simp [transcribe_with_metrics, h]
  · intro h
    simp [transcribe_core, h]
  · intro t h
    simp [transcribe_core, h]

theorem transcribe_with_metrics_witness :
    transcribe_with_metrics false (fun _ => none) latOne "a.wav"
      = (Except.error "Model not loaded. Call load_model() first.", 0) ∧
    transcribe_with_metrics true (fun _ => none) latOne "a.wav"
      = (Except.ok (transcribe_core (fun _ => none) latOne "a.wav"), 1) ∧
    (transcribe_core (fun _ => none) latOne "a.wav").transcription = [] :=
  ⟨(transcribe_with_metrics_spec false (fun _ => none) latOne "a.wav").1 rfl,
   (transcribe_with_metrics_spec true (fun _ => none) latOne "a.wav").2.1 rfl,
   (transcribe_with_metrics_spec true (fun _ => none) latOne "a.wav").2.2.1 rfl⟩

end STTBench
